import Mathlib

/-!
Verification of the BLE link framing and request/response correlation layer of
the `scratch3_kori` extension (`src/extensions/scratch3_kori/index.js`): the
`Kori` class (`send`, `sendChunk`, `_onMessage`, `displayText`) and
`Scratch3KoriBlocks.getConfig`.

Bytes are modelled as `Nat` with explicit `% 256` where the code's
`Uint8Array` semantics truncate.  The JavaScript base64 helpers
(`Base64Util.uint8ArrayToBase64` from `util/base64-util`, a file of this
repository that is not part of the sources here, and Node's
`Buffer.from(data, 'base64')`) are modelled as standard RFC 4648 base64:
the encoder emits 6-bit groups with trailing `=` padding, and the decoder
collects the 6-bit values of alphabet characters, skipping padding and
emitting every completed byte — Node's lenient behaviour, under which a
lone base64 character decodes to no bytes at all.  `JSON.parse` composed
with `Buffer.toString` is an external collaborator and is a parameter
`parse : List Nat → Option Msg` of the receive model.
-/

namespace Kori

/-- The RFC 4648 base64 alphabet, in index order. -/
def base64Chars : List Char :=
  "ABCDEFGHIJKLMNOPQRSTUVWXYZabcdefghijklmnopqrstuvwxyz0123456789+/".toList

/-- The alphabet character of a 6-bit value. -/
def sextetToChar (v : Nat) : Char :=
  base64Chars.getD v '?'

/-- The 6-bit value of an alphabet character (`none` for `=` padding and any
other non-alphabet character, which Node's decoder skips). -/
def charToSextet (c : Char) : Option Nat :=
  base64Chars.findIdx? (fun x => x == c)

/-- The 6-bit groups `Base64Util.uint8ArrayToBase64` derives from the input
bytes, three bytes at a time. -/
def sextetsOf : List Nat → List Nat
  | [] => []
  | [b1] => [b1 / 4, b1 % 4 * 16]
  | [b1, b2] => [b1 / 4, b1 % 4 * 16 + b2 / 16, b2 % 16 * 4]
  | b1 :: b2 :: b3 :: r =>
      b1 / 4 :: (b1 % 4 * 16 + b2 / 16) :: (b2 % 16 * 4 + b3 / 64) :: b3 % 64 ::
        sextetsOf r

/-- The `=` padding the encoder appends after the alphabet characters. -/
def padOf : List Nat → List Char
  | [] => []
  | [_] => ['=', '=']
  | [_, _] => ['=']
  | _ :: _ :: _ :: r => padOf r

/-- Model of `Base64Util.uint8ArrayToBase64`: RFC 4648 base64 of a byte
list. -/
def uint8ArrayToBase64 (bytes : List Nat) : List Char :=
  (sextetsOf bytes).map sextetToChar ++ padOf bytes

/-- Node's base64 bit accumulator: `acc` holds `bits` pending bits; each
6-bit value is appended and every completed byte is emitted. -/
def decodeSextets : List Nat → Nat → Nat → List Nat
  | [], _, _ => []
  | v :: rest, acc, bits =>
      if 8 ≤ bits + 6 then
        (acc * 64 + v) / 2 ^ (bits + 6 - 8) ::
          decodeSextets rest ((acc * 64 + v) % 2 ^ (bits + 6 - 8)) (bits + 6 - 8)
      else
        decodeSextets rest (acc * 64 + v) (bits + 6)

/-- Model of Node's `Buffer.from(s, 'base64')`: skip non-alphabet characters
(in particular `=` padding), then emit every completed byte of the 6-bit
stream; trailing bits that do not fill a byte are dropped. -/
def bufferFromBase64 (s : List Char) : List Nat :=
  decodeSextets (s.filterMap charToSextet) 0 0

/-- The record `JSON.parse` must deliver for `_onMessage` to emit: the
`event` correlation key and the re-stringified `response` field. -/
structure Msg where
  event : String
  response : String
deriving DecidableEq

/-- The mutable state the framing layer lives on: the `Kori` instance fields
`_ble` connectivity, `_busy` and `_busyTimeoutID`, and the module-level
globals `eventIndex`, `emitter` (the names with a pending `once` listener)
and `dataBuffer`. -/
structure KoriState where
  connected : Bool
  busy : Bool
  busyTimeoutArmed : Bool
  eventIndex : Nat
  listeners : List String
  dataBuffer : List Nat
deriving DecidableEq

/-- `emitter.emit name payload` with `once` listeners: returns whether the
event had any listener; all `once` listeners for it are removed. -/
def emitEvent (ls : List String) (e : String) : Bool × List String :=
  (decide (e ∈ ls), ls.filter (fun x => !decide (x = e)))

/-- What one `_onMessage` call makes observable: the bytes handed to
`JSON.parse` (if the sentinel scan fired) and the emitted event with
`emitter.emit`'s return value (if parsing succeeded). -/
structure RxObs where
  parsed : Option (List Nat)
  emitted : Option (String × Bool)
deriving DecidableEq

/-- `Kori._onMessage(data)` (lines 426–447): append the base64-decoded
fragment to the module buffer; when the buffer holds the sentinel byte
anywhere, hand every byte except the last one to `JSON.parse`; on success
emit the `event` key and reset the buffer to empty, on failure return early
with the buffer left exactly as it is (the `return` in the `catch` block
skips the reset). -/
def onMessage (parse : List Nat → Option Msg) (data : List Char)
    (s : KoriState) : KoriState × RxObs :=
  let buf := s.dataBuffer ++ bufferFromBase64 data
  if 0 ∈ buf then
    let bufWithoutLast := buf.dropLast
    match parse bufWithoutLast with
    | some json =>
        let r := emitEvent s.listeners json.event
        ({ s with dataBuffer := [], listeners := r.2 },
         { parsed := some bufWithoutLast, emitted := some (json.event, r.1) })
    | none =>
        ({ s with dataBuffer := buf },
         { parsed := some bufWithoutLast, emitted := none })
  else
    ({ s with dataBuffer := buf }, { parsed := none, emitted := none })

/-- Feed inbound fragments to `_onMessage` one at a time, collecting the
byte lists handed to `JSON.parse` and the emissions, in order. -/
def runRx (parse : List Nat → Option Msg) :
    List (List Char) → KoriState →
      KoriState × List (List Nat) × List (String × Bool)
  | [], s => (s, [], [])
  | d :: rest, s =>
      let r1 := onMessage parse d s
      let r2 := runRx parse rest r1.1
      (r2.1, r1.2.parsed.toList ++ r2.2.1, r1.2.emitted.toList ++ r2.2.2)

/-- A `Uint8Array` element store: the value is truncated to a byte and an
out-of-bounds index leaves the array untouched. -/
def uint8Write (arr : List Nat) (i v : Nat) : List Nat :=
  if i < arr.length then arr.set i (v % 256) else arr

/-- The copy loop of `Kori.send`:
`for (let i = 0; i < message.length; i++) output[i] = message[i]`. -/
def copyLoop (message arr : List Nat) : List Nat :=
  (List.range message.length).foldl (fun a i => uint8Write a i (message.getD i 0)) arr

/-- Lines 373–378 of `Kori.send`: allocate `new Uint8Array(message.length + 1)`
(zero-initialised), copy the message bytes, then perform the write
`output[message.length + 1] = ...` whose index is one past the end of the
array (the assigned `'\0'` would coerce to `0` in any case). -/
def framedOutput (message : List Nat) : List Nat :=
  uint8Write (copyLoop message (List.replicate (message.length + 1) 0))
    (message.length + 1) 0

/-- The substring loop of `Kori.send`:
`for (let i = 0; i < data.length; i += 180) chunks.push(data.substring(i, i + 180))`,
generalised to chunk size `n + 1`.  The fuel argument only bounds the
number of loop iterations; it is set to the length of the list, which the
loop can never exceed since every iteration consumes at least one
character. -/
def chunksByFuel (n : Nat) : Nat → List Char → List (List Char)
  | _, [] => []
  | 0, l => [l]
  | fuel + 1, c :: rest => ((c :: rest).take (n + 1)) :: chunksByFuel n fuel (rest.drop n)

/-- The substring loop at chunk size `n + 1`, started with enough fuel. -/
def chunksBy (n : Nat) (l : List Char) : List (List Char) :=
  chunksByFuel n l.length l

/-- The chunk list `Kori.send` builds: 180-character substrings of the
base64-encoded framed message. -/
def chunkData (data : List Char) : List (List Char) :=
  chunksBy 179 data

/-- The synchronous part of `Kori.send` (lines 358–393): the two guard
clauses that bail out with JavaScript `undefined` (modelled as `none`), the
busy flag and its 5000 ms release timer, the framing, the base64 encoding,
and the chunk list the returned promise will iterate over. -/
def send (s : KoriState) (message : List Nat) :
    KoriState × Option (List (List Char)) :=
  if s.connected = false then (s, none)
  else if s.busy = true then (s, none)
  else
    ({ s with busy := true, busyTimeoutArmed := true },
     some (chunkData (uint8ArrayToBase64 (framedOutput message))))

/-- `Kori.displayText(text)` (lines 284–290): build a `Uint8Array` from
`charCodeAt` of each character and pass it to `send`, forwarding `send`'s
return value. -/
def displayText (s : KoriState) (text : List Char) :
    KoriState × Option (List (List Char)) :=
  send s (text.map (fun c => c.toNat % 256))

/-- The error §7 of the spec expects a caller to receive for a fragment
write failure. -/
inductive JsError where
  | transportWriteFailed
deriving DecidableEq

/-- The fates of the promise `Kori.send` returns.  The executor resolves
only after every chunk write has succeeded; a rejected chunk write makes the
`await` throw inside the discarded `async` executor, so the outer promise
never settles.  `rejected` is the settled-with-error fate the spec posits
for a failed write; the code never produces it. -/
inductive PromiseResult where
  | resolved
  | neverSettles
  | rejected (e : JsError)
deriving DecidableEq

/-- The chunk loop of `Kori.send`'s executor, driven by an oracle `ws`
giving each `this._ble.write` outcome (`true` = fulfilled).  A fulfilled
write (`sendChunk`'s `.then`) clears the busy flag and its timeout before
the loop continues; a rejected write rejects `sendChunk`'s promise and
kills the loop and the outer promise silently.  An exhausted oracle is a
write that never settles.  Returns the state, the chunks actually handed to
`write`, and the outer promise's fate. -/
def runChunks : KoriState → List (List Char) → List Bool →
    KoriState × List (List Char) × PromiseResult
  | s, [], _ => (s, [], .resolved)
  | s, c :: _, [] => (s, [c], .neverSettles)
  | s, c :: cs, true :: ws =>
      let r := runChunks { s with busy := false, busyTimeoutArmed := false } cs ws
      (r.1, c :: r.2.1, r.2.2)
  | s, c :: _, false :: _ => (s, [c], .neverSettles)

/-- Externally visible steps of one `Scratch3KoriBlocks.getConfig` call. -/
inductive Action where
  | write (chunk : List Char)
  | registerWaiter (key : String)
deriving DecidableEq

/-- Whether an action is the registration of a correlation waiter. -/
def Action.isRegister : Action → Bool
  | .registerWaiter _ => true
  | .write _ => false

/-- How one `getConfig` call ends. -/
inductive GetConfigResult where
  | typeError
  | pendingResponse (key : String)
  | hung
deriving DecidableEq

/-- The exact `JSON.stringify` output of the `get_config` command record for
event counter value `n`. -/
def getConfigText (n : Nat) : List Char :=
  ("\x7b\"event\":\"event" ++ toString n ++
    "\",\"cmd\":\"get_config\",\"args\":\x7b\x7d\x7d").toList

/-- `Scratch3KoriBlocks.getConfig` (lines 1046–1098): bump the global event
counter, stringify the command, call `displayText`, and — only inside the
`.then` of the promise it returns — register the `emitter.once` waiter for
`event<n>` (re-reading the counter at that moment).  `.then` on the
`undefined` that `send` returns when disconnected or busy throws a
`TypeError`.  Driven by the write-outcome oracle `ws`; returns the final
state, the ordered trace of transport writes and waiter registrations, and
the call's outcome. -/
def getConfig (s : KoriState) (ws : List Bool) :
    KoriState × List Action × GetConfigResult :=
  let s1 := { s with eventIndex := s.eventIndex + 1 }
  let text := getConfigText s1.eventIndex
  match displayText s1 text with
  | (s2, none) => (s2, [], .typeError)
  | (s2, some chunks) =>
      let r := runChunks s2 chunks ws
      match r.2.2 with
      | .resolved =>
          let key := "event" ++ toString r.1.eventIndex
          ({ r.1 with listeners := r.1.listeners ++ [key] },
           r.2.1.map Action.write ++ [Action.registerWaiter key],
           .pendingResponse key)
      | _ => (r.1, r.2.1.map Action.write, .hung)

/-- The ordering the spec requires in §4.5: in the trace of a `sendCommand`,
the waiter registration comes before any transport write. -/
def registeredBeforeWrite : List Action → Bool
  | [] => false
  | .registerWaiter _ :: _ => true
  | .write _ :: _ => false

/-- The events that can touch the busy flag: a `send` invocation, the
settlement of one chunk write, the 5000 ms busy-timeout callback, and an
inbound notification. (`Kori._reset`, which would also clear the flag, is
bound in the constructor but never invoked anywhere in the file.) -/
inductive KEvent where
  | sendStart (message : List Nat)
  | chunkWriteOk
  | chunkWriteFail
  | busyTimeoutFire
  | messageArrive (data : List Char)

/-- Whether an event is the start of a send. -/
def KEvent.isSendStart : KEvent → Bool
  | .sendStart _ => true
  | _ => false

/-- Whether an event is the expiry of the busy timeout. -/
def KEvent.isBusyTimeout : KEvent → Bool
  | .busyTimeoutFire => true
  | _ => false

/-- Whether an event is the arrival of an inbound message fragment. -/
def KEvent.isMessageArrive : KEvent → Bool
  | .messageArrive _ => true
  | _ => false

/-- The events that actually clear the busy flag in the code: a fulfilled
chunk write (`sendChunk`'s `.then`) and the busy-timeout callback. -/
def KEvent.clearsBusy : KEvent → Bool
  | .chunkWriteOk => true
  | .busyTimeoutFire => true
  | _ => false

/-- One externally triggered step of the `Kori` instance: each event runs
the corresponding handler from the source. -/
def step (parse : List Nat → Option Msg) : KEvent → KoriState → KoriState
  | .sendStart m, s => (send s m).1
  | .chunkWriteOk, s => { s with busy := false, busyTimeoutArmed := false }
  | .chunkWriteFail, s => s
  | .busyTimeoutFire, s => { s with busy := false, busyTimeoutArmed := false }
  | .messageArrive data, s => (onMessage parse data s).1

/-- The transition discipline claimed for the gate: the busy flag changes
only Idle→Busy at a send start and Busy→Idle at the receipt of a resolving
response or at the busy-timeout expiry. -/
def claimedBusyTransition (e : KEvent) (b b2 : Bool) : Prop :=
  b2 = b ∨ (b = false ∧ b2 = true ∧ e.isSendStart = true) ∨
    (b = true ∧ b2 = false ∧ (e.isMessageArrive = true ∨ e.isBusyTimeout = true))

instance (e : KEvent) (b b2 : Bool) : Decidable (claimedBusyTransition e b b2) := by
  unfold claimedBusyTransition; infer_instance

/-- Modelled from the spec: §7's error taxonomy as far as `sendCommand`
admission is concerned — the outcome the caller is supposed to be able to
observe when the gate is held (`busy`) or the transport is down
(`notConnected`). -/
inductive SpecOutcome where
  | busy
  | notConnected
  | accepted
deriving DecidableEq

/-- Modelled from the spec (§4.5, §7): which of the admission outcomes a
given state calls for. -/
def specSendOutcome (s : KoriState) : SpecOutcome :=
  if s.connected = false then .notConnected
  else if s.busy = true then .busy
  else .accepted

/-- The sentinel-scan extraction the spec prescribes in §4.2: the completed
message is everything before the first sentinel occurrence, the next buffer
everything after it. -/
def specExtract (buf : List Nat) : List Nat × List Nat :=
  (buf.takeWhile (fun b => b != 0), (buf.dropWhile (fun b => b != 0)).tail)

/-- A concrete well-formed message: the bytes of the text
`\x7b"event":"event1","response":0\x7d` (braces written as escapes). -/
def sampleMessageBytes : List Nat :=
  ("\x7b\"event\":\"event1\",\"response\":0\x7d").toList.map (fun c => c.toNat)

/-- A concrete stand-in for `JSON.parse` composed with `Buffer.toString`:
it accepts exactly the sample message — as `JSON.parse` would — and rejects
every other byte list produced in the runs below (`JSON.parse` throws on
the text `X` and on any text with a leading `X` or an embedded NUL). -/
def sampleParse (b : List Nat) : Option Msg :=
  if b = sampleMessageBytes then some ⟨"event1", "0"⟩ else none

/-! ## Base64 lemmas -/

theorem charToSextet_sextetToChar : ∀ v, v < 64 → charToSextet (sextetToChar v) = some v := by
  decide

theorem decodeSextets_two (a b : Nat) (T : List Nat) :
    decodeSextets (a :: b :: T) 0 0 =
      (a * 64 + b) / 16 :: decodeSextets T ((a * 64 + b) % 16) 4 := by
  simp [decodeSextets]

theorem decodeSextets_quad (a b c d : Nat) (T : List Nat) :
    decodeSextets (a :: b :: c :: d :: T) 0 0 =
      (a * 64 + b) / 16 :: ((a * 64 + b) % 16 * 64 + c) / 4 ::
        (((a * 64 + b) % 16 * 64 + c) % 4 * 64 + d) :: decodeSextets T 0 0 := by
  simp [decodeSextets, Nat.mod_one]

theorem decodeSextets_append : ∀ (S1 S2 : List Nat), S1.length % 4 = 0 →
    decodeSextets (S1 ++ S2) 0 0 = decodeSextets S1 0 0 ++ decodeSextets S2 0 0
  | [], S2, _ => by simp [decodeSextets]
  | [a], _, h => by simp at h
  | [a, b], _, h => by simp at h
  | [a, b, c], _, h => by simp at h
  | a :: b :: c :: d :: T, S2, h => by
      have hT : T.length % 4 = 0 := by
        simp only [List.length_cons] at h
        omega
      simp only [List.cons_append, decodeSextets_quad,
        decodeSextets_append T S2 hT]

theorem sextetsOf_lt : ∀ (B : List Nat), (∀ b ∈ B, b < 256) →
    ∀ v ∈ sextetsOf B, v < 64
  | [], _ => by simp [sextetsOf]
  | [b1], h => by
      have h1 : b1 < 256 := h b1 (by simp)
      intro v hv
      simp only [sextetsOf, List.mem_cons, List.not_mem_nil, or_false] at hv
      rcases hv with rfl | rfl <;> omega
  | [b1, b2], h => by
      have h1 : b1 < 256 := h b1 (by simp)
      have h2 : b2 < 256 := h b2 (by simp)
      intro v hv
      simp only [sextetsOf, List.mem_cons, List.not_mem_nil, or_false] at hv
      rcases hv with rfl | rfl | rfl <;> omega
  | b1 :: b2 :: b3 :: r, h => by
      have h1 : b1 < 256 := h b1 (by simp)
      have h2 : b2 < 256 := h b2 (by simp)
      have h3 : b3 < 256 := h b3 (by simp)
      intro v hv
      simp only [sextetsOf, List.mem_cons] at hv
      rcases hv with rfl | rfl | rfl | rfl | hv
      · omega
      · omega
      · omega
      · omega
      · exact sextetsOf_lt r (fun b hb => h b (by simp [hb])) v hv

theorem decodeSextets_sextetsOf : ∀ (B : List Nat), (∀ b ∈ B, b < 256) →
    decodeSextets (sextetsOf B) 0 0 = B
  | [], _ => by simp [sextetsOf, decodeSextets]
  | [b1], h => by
      have h1 : b1 < 256 := h b1 (by simp)
      have e : sextetsOf [b1] = [b1 / 4, b1 % 4 * 16] := rfl
      rw [e, decodeSextets_two]
      simp only [decodeSextets, List.cons.injEq]
      exact ⟨by omega, trivial⟩
  | [b1, b2], h => by
      have h1 : b1 < 256 := h b1 (by simp)
      have h2 : b2 < 256 := h b2 (by simp)
      have e : sextetsOf [b1, b2] = [b1 / 4, b1 % 4 * 16 + b2 / 16, b2 % 16 * 4] := rfl
      rw [e, decodeSextets_two]
      simp only [decodeSextets, Nat.reduceLeDiff, if_true, List.cons.injEq]
      refine ⟨by omega, by omega, trivial⟩
  | b1 :: b2 :: b3 :: r, h => by
      have h1 : b1 < 256 := h b1 (by simp)
      have h2 : b2 < 256 := h b2 (by simp)
      have h3 : b3 < 256 := h b3 (by simp)
      have e : sextetsOf (b1 :: b2 :: b3 :: r) =
          b1 / 4 :: (b1 % 4 * 16 + b2 / 16) :: (b2 % 16 * 4 + b3 / 64) :: b3 % 64 ::
            sextetsOf r := rfl
      rw [e, decodeSextets_quad,
        decodeSextets_sextetsOf r (fun b hb => h b (by simp [hb]))]
      simp only [List.cons.injEq]
      refine ⟨by omega, by omega, by omega, trivial⟩

theorem filterMap_sextet : ∀ (S : List Nat), (∀ v ∈ S, v < 64) →
    (S.map sextetToChar).filterMap charToSextet = S
  | [], _ => rfl
  | v :: S, h => by
      have hv := charToSextet_sextetToChar v (h v (by simp))
      simp only [List.map_cons, List.filterMap_cons, hv,
        filterMap_sextet S (fun x hx => h x (by simp [hx]))]

theorem padOf_sextet_none : ∀ (B : List Nat) (c : Char), c ∈ padOf B → charToSextet c = none
  | [], c => by simp [padOf]
  | [b], c => by
      intro hc
      simp only [padOf, List.mem_cons, List.not_mem_nil, or_false] at hc
      rcases hc with rfl | rfl <;> decide
  | [b1, b2], c => by
      intro hc
      simp only [padOf, List.mem_cons, List.not_mem_nil, or_false] at hc
      rw [hc]
      decide
  | b1 :: b2 :: b3 :: r, c => padOf_sextet_none r c

theorem padOf_length_le : ∀ (B : List Nat), (padOf B).length ≤ 2
  | [] => by simp [padOf]
  | [b] => by simp [padOf]
  | [b1, b2] => by simp [padOf]
  | _ :: _ :: _ :: r => padOf_length_le r

theorem bufferFromBase64_map_pad (S : List Nat) (pad : List Char)
    (hS : ∀ v ∈ S, v < 64) (hpad : ∀ c ∈ pad, charToSextet c = none) :
    bufferFromBase64 (S.map sextetToChar ++ pad) = decodeSextets S 0 0 := by
  unfold bufferFromBase64
  rw [List.filterMap_append, List.filterMap_eq_nil_iff.mpr hpad, List.append_nil,
    filterMap_sextet S hS]

theorem bufferFromBase64_map (S : List Nat) (hS : ∀ v ∈ S, v < 64) :
    bufferFromBase64 (S.map sextetToChar) = decodeSextets S 0 0 := by
  have := bufferFromBase64_map_pad S [] hS (by simp)
  simpa using this

theorem bufferFromBase64_encode (B : List Nat) (h : ∀ b ∈ B, b < 256) :
    bufferFromBase64 (uint8ArrayToBase64 B) = B := by
  unfold uint8ArrayToBase64
  rw [bufferFromBase64_map_pad _ _ (sextetsOf_lt B h) (padOf_sextet_none B)]
  exact decodeSextets_sextetsOf B h

theorem decodeSextets_ne_nil : ∀ (S : List Nat), 2 ≤ S.length →
    decodeSextets S 0 0 ≠ []
  | [], h => by simp at h
  | [a], h => by simp at h
  | a :: b :: T, _ => by
      rw [decodeSextets_two]
      exact List.cons_ne_nil _ _

theorem uint8ArrayToBase64_ne_nil : ∀ (l : List Nat), l ≠ [] → uint8ArrayToBase64 l ≠ []
  | [], h => absurd rfl h
  | [b], _ => by simp [uint8ArrayToBase64, sextetsOf, padOf]
  | [b, c], _ => by simp [uint8ArrayToBase64, sextetsOf, padOf]
  | b :: c :: d :: r, _ => by simp [uint8ArrayToBase64, sextetsOf]

/-! ## Fragment partitions of an encoded stream -/

theorem pieces_decode : ∀ (pieces : List (List Char)) (S : List Nat) (pad : List Char),
    (∀ v ∈ S, v < 64) → (∀ c ∈ pad, charToSextet c = none) → pad.length ≤ 2 →
    (∀ p ∈ pieces, p ≠ [] ∧ p.length % 4 = 0) →
    pieces.flatten = S.map sextetToChar ++ pad →
    (pieces.map bufferFromBase64).flatten = decodeSextets S 0 0 ∧
      ∀ p ∈ pieces, bufferFromBase64 p ≠ []
  | [], S, pad, hS, hpad, hpl, hp, hcat => by
      simp only [List.flatten_nil] at hcat
      obtain ⟨hm, hp2⟩ := List.append_eq_nil.mp hcat.symm
      have hS0 : S = [] := List.map_eq_nil_iff.mp hm
      subst hS0
      simp [decodeSextets]
  | p :: rest, S, pad, hS, hpad, hpl, hp, hcat => by
      obtain ⟨hpne, hp4⟩ := hp p (by simp)
      have hplen : 4 ≤ p.length := by
        have : p.length ≠ 0 := by simpa [List.length_eq_zero] using hpne
        omega
      cases rest with
      | nil =>
          simp only [List.flatten_cons, List.flatten_nil, List.append_nil] at hcat
          have hSlen : 2 ≤ S.length := by
            have hc := congrArg List.length hcat
            simp only [List.length_append, List.length_map] at hc
            omega
          have hdp : bufferFromBase64 p = decodeSextets S 0 0 := by
            rw [hcat]
            exact bufferFromBase64_map_pad S pad hS hpad
          refine ⟨by simp [hdp], ?_⟩
          intro q hq
          simp only [List.mem_singleton] at hq
          subst hq
          rw [hdp]
          exact decodeSextets_ne_nil S hSlen
      | cons q rest2 =>
          have hcat2 : (p ++ (q :: rest2).flatten) = S.map sextetToChar ++ pad := by
            simpa only [List.flatten_cons, List.append_assoc] using hcat
          obtain ⟨hqne, hq4⟩ := hp q (by simp)
          have hqlen : 4 ≤ q.length := by
            have : q.length ≠ 0 := by simpa [List.length_eq_zero] using hqne
            omega
          have hflen : 4 ≤ ((q :: rest2).flatten).length := by
            simp only [List.flatten_cons, List.length_append]
            omega
          have hple : p.length ≤ S.length := by
            have hc := congrArg List.length hcat2
            simp only [List.length_append, List.length_map] at hc
            omega
          have htake : p = (S.take p.length).map sextetToChar := by
            have h1 := List.take_left p ((q :: rest2).flatten)
            rw [hcat2] at h1
            rw [List.take_append_of_le_length (by simpa [List.length_map] using hple)] at h1
            rw [← List.map_take] at h1
            exact h1.symm
          have hdrop : (q :: rest2).flatten = (S.drop p.length).map sextetToChar ++ pad := by
            have h1 := List.drop_left p ((q :: rest2).flatten)
            rw [hcat2] at h1
            rw [List.drop_append_of_le_length (by simpa [List.length_map] using hple)] at h1
            rw [← List.map_drop] at h1
            exact h1.symm
          have htakelen : (S.take p.length).length = p.length := by
            simp [List.length_take, Nat.min_eq_left hple]
          obtain ⟨ih1, ih2⟩ := pieces_decode (q :: rest2) (S.drop p.length) pad
            (fun v hv => hS v (List.mem_of_mem_drop hv)) hpad hpl
            (fun r hr => hp r (by simp [hr])) hdrop
          have hdp : bufferFromBase64 p = decodeSextets (S.take p.length) 0 0 := by
            conv_lhs => rw [htake]
            exact bufferFromBase64_map _ (fun v hv => hS v (List.mem_of_mem_take hv))
          constructor
          · simp only [List.map_cons, List.flatten_cons] at ih1 ⊢
            rw [hdp, ih1, ← decodeSextets_append (S.take p.length) (S.drop p.length)
              (by rw [htakelen]; exact hp4), List.take_append_drop]
          · intro r hr
            rcases List.mem_cons.mp hr with rfl | hr2
            · rw [hdp]
              exact decodeSextets_ne_nil _ (by omega)
            · exact ih2 r hr2

/-! ## Step lemmas for the receive handler -/

theorem onMessage_no_sentinel (parse : List Nat → Option Msg) (data : List Char)
    (s : KoriState) (h : 0 ∉ s.dataBuffer ++ bufferFromBase64 data) :
    onMessage parse data s =
      ({ s with dataBuffer := s.dataBuffer ++ bufferFromBase64 data },
       { parsed := none, emitted := none }) := by
  unfold onMessage
  rw [if_neg h]

theorem onMessage_sentinel (parse : List Nat → Option Msg) (data : List Char)
    (s : KoriState) (h : 0 ∈ s.dataBuffer ++ bufferFromBase64 data) :
    onMessage parse data s =
      match parse ((s.dataBuffer ++ bufferFromBase64 data).dropLast) with
      | some json =>
          ({ s with dataBuffer := [], listeners := (emitEvent s.listeners json.event).2 },
           { parsed := some ((s.dataBuffer ++ bufferFromBase64 data).dropLast),
             emitted := some (json.event, (emitEvent s.listeners json.event).1) })
      | none =>
          ({ s with dataBuffer := s.dataBuffer ++ bufferFromBase64 data },
           { parsed := some ((s.dataBuffer ++ bufferFromBase64 data).dropLast),
             emitted := none }) := by
  unfold onMessage
  rw [if_pos h]

/-! ## The receive run over a partitioned framed message -/

theorem runRx_calls : ∀ (parse : List Nat → Option Msg) (pieces : List (List Char))
    (P buf : List Nat) (s : KoriState),
    0 ∉ buf → 0 ∉ P →
    (∀ p ∈ pieces, bufferFromBase64 p ≠ []) →
    buf ++ (pieces.map bufferFromBase64).flatten = P ++ [0] →
    pieces ≠ [] → s.dataBuffer = buf →
    (runRx parse pieces s).2.1 = [P]
  | parse, [], P, buf, s, _, _, _, _, hne, _ => absurd rfl hne
  | parse, p :: rest, P, buf, s, hb, hP, hdec, hcat, _, hs => by
      subst hs
      cases rest with
      | nil =>
          simp only [List.map_cons, List.map_nil, List.flatten_cons, List.flatten_nil,
            List.append_nil] at hcat
          have hmem : (0 : Nat) ∈ s.dataBuffer ++ bufferFromBase64 p := by
            rw [hcat]; simp
          have hstep := onMessage_sentinel parse p s hmem
          rw [hcat, List.dropLast_concat] at hstep
          have hrun : (runRx parse [p] s).2.1 =
              (onMessage parse p s).2.parsed.toList ++
                (runRx parse [] (onMessage parse p s).1).2.1 := rfl
          rw [hrun, hstep]
          cases hparse : parse P <;> simp [hparse, runRx]
      | cons q rest2 =>
          have hcat2 : (s.dataBuffer ++ bufferFromBase64 p) ++
              ((q :: rest2).map bufferFromBase64).flatten = P ++ [0] := by
            simpa only [List.map_cons, List.flatten_cons, List.append_assoc] using hcat
          have hqne := hdec q (by simp)
          have hJne : (((q :: rest2).map bufferFromBase64).flatten).length ≠ 0 := by
            simp only [List.map_cons, List.flatten_cons, List.length_append]
            intro hzero
            exact hqne (by
              have hq0 : (bufferFromBase64 q).length = 0 := by omega
              simpa [List.length_eq_zero] using hq0)
          have hlen : (s.dataBuffer ++ bufferFromBase64 p).length ≤ P.length := by
            have hc := congrArg List.length hcat2
            simp only [List.length_append] at hc ⊢
            simp only [List.length_cons, List.length_nil] at hc
            omega
          have htake : P.take (s.dataBuffer ++ bufferFromBase64 p).length =
              s.dataBuffer ++ bufferFromBase64 p := by
            have h1 := List.take_left (s.dataBuffer ++ bufferFromBase64 p)
              (((q :: rest2).map bufferFromBase64).flatten)
            rw [hcat2] at h1
            rw [List.take_append_of_le_length hlen] at h1
            exact h1
          have hb2 : 0 ∉ s.dataBuffer ++ bufferFromBase64 p := by
            intro h0
            exact hP (List.mem_of_mem_take (htake ▸ h0))
          have hstep := onMessage_no_sentinel parse p s hb2
          have ih := runRx_calls parse (q :: rest2) P (s.dataBuffer ++ bufferFromBase64 p)
            { s with dataBuffer := s.dataBuffer ++ bufferFromBase64 p } hb2 hP
            (fun r hr => hdec r (by simp [hr]))
            (by simpa only [List.append_assoc] using hcat2) (by simp) rfl
          have hrun : (runRx parse (p :: q :: rest2) s).2.1 =
              (onMessage parse p s).2.parsed.toList ++
                (runRx parse (q :: rest2) (onMessage parse p s).1).2.1 := rfl
          rw [hrun, hstep]
          simpa using ih

/-! ## The framed output buffer -/

theorem uint8Write_length (arr : List Nat) (i v : Nat) :
    (uint8Write arr i v).length = arr.length := by
  unfold uint8Write
  split <;> simp

theorem set_append_eq (A B : List Nat) (i v : Nat) (h : i = A.length) :
    (A ++ B).set i v = A ++ B.set 0 v := by
  subst h
  induction A with
  | nil => simp
  | cons a A ih => simp [ih]

theorem copyLoop_take : ∀ (k : Nat) (m arr : List Nat), k ≤ m.length → m.length < arr.length →
    (List.range k).foldl (fun a i => uint8Write a i (m.getD i 0)) arr
      = (m.take k).map (fun b => b % 256) ++ arr.drop k := by
  intro k
  induction k with
  | zero => intro m arr _ _; simp
  | succ k ih =>
      intro m arr hk harr
      rw [List.range_succ, List.foldl_append]
      rw [ih m arr (by omega) harr]
      simp only [List.foldl_cons, List.foldl_nil]
      have hA : ((m.take k).map (fun b => b % 256)).length = k := by
        simp [List.length_take, List.length_map, Nat.min_eq_left (by omega : k ≤ m.length)]
      have hlt : k < ((m.take k).map (fun b => b % 256) ++ arr.drop k).length := by
        simp only [List.length_append, hA, List.length_drop]
        omega
      unfold uint8Write
      rw [if_pos hlt, set_append_eq _ _ _ _ hA.symm,
        List.drop_eq_getElem_cons (show k < arr.length by omega)]
      have hkm : k < m.length := by omega
      simp only [List.set_cons_zero, List.take_succ, List.getElem?_eq_getElem hkm,
        Option.toList_some, List.map_append, List.map_cons, List.map_nil,
        List.getD_eq_getElem?_getD, List.getElem?_eq_getElem hkm, Option.getD_some,
        List.append_assoc, List.cons_append, List.nil_append]

theorem copyLoop_length (m arr : List Nat) : (copyLoop m arr).length = arr.length := by
  unfold copyLoop
  generalize List.range m.length = l
  induction l generalizing arr with
  | nil => rfl
  | cons i l ih =>
      simp only [List.foldl_cons]
      rw [ih, uint8Write_length]

theorem copyLoop_spec (m : List Nat) :
    copyLoop m (List.replicate (m.length + 1) 0) = m.map (fun b => b % 256) ++ [0] := by
  unfold copyLoop
  rw [copyLoop_take m.length m (List.replicate (m.length + 1) 0) le_rfl (by simp)]
  simp [List.drop_replicate]

theorem framedOutput_oobWrite (m : List Nat) :
    uint8Write (copyLoop m (List.replicate (m.length + 1) 0)) (m.length + 1) 0 =
      copyLoop m (List.replicate (m.length + 1) 0) := by
  unfold uint8Write
  rw [if_neg]
  rw [copyLoop_length]
  simp

theorem framedOutput_map (m : List Nat) :
    framedOutput m = m.map (fun b => b % 256) ++ [0] := by
  rw [framedOutput, framedOutput_oobWrite, copyLoop_spec]

theorem framedOutput_eq (m : List Nat) (h : ∀ b ∈ m, b < 256) :
    framedOutput m = m ++ [0] := by
  rw [framedOutput_map]
  have hm : ∀ b ∈ m, b % 256 = b := fun b hb => Nat.mod_eq_of_lt (h b hb)
  rw [List.map_congr_left hm]
  simp

/-! ## C1 — round-trip framing -/

/-- C1, counterexample: the claim fails as stated.  For the payload `P = []`
(a length allowed by the claim) the framed, chunked stream is the base64
text `AA==`; delivered as degenerate 1-byte fragments, each single base64
character decodes to no byte at all under Node's decoder, so the sentinel
never reaches the reassembly buffer and the reassembler hands nothing to
message parsing: nothing — in particular not `P` — is reconstructed. -/
theorem c1_single_char_fragments_lose_message :
    [['A'], ['A'], ['='], ['=']].flatten
        = uint8ArrayToBase64 (framedOutput ([] : List Nat)) ∧
    (runRx (fun _ => none) [['A'], ['A'], ['='], ['=']]
        ⟨true, false, false, 0, [], []⟩).2.1 = [] ∧
    (runRx (fun _ => none) [['A'], ['A'], ['='], ['=']]
        ⟨true, false, false, 0, [], []⟩).2.1 ≠ [([] : List Nat)] :=
  ⟨by decide, by decide, by decide⟩

/-- C1 (amended): for every sentinel-free payload `P` of bytes and every
partition of the framed, chunked base64 stream into nonempty fragments
whose sizes are multiples of 4 base64 characters — which covers the
180-character fragments `Kori.send` produces and the whole framed message
as a single fragment, but not arbitrary fragment sizes such as 1 —
feeding the fragments one at a time into `Kori._onMessage` starting from an
empty reassembly buffer hands exactly `P` (and nothing else) to message
parsing: the round trip reconstructs exactly `P`. -/
theorem c1_roundTrip_quad_fragment_boundaries (P : List Nat) (pieces : List (List Char))
    (parse : List Nat → Option Msg) (s : KoriState)
    (hB : ∀ b ∈ P, b < 256) (hz : 0 ∉ P)
    (hp : ∀ p ∈ pieces, p ≠ [] ∧ p.length % 4 = 0)
    (hcat : pieces.flatten = uint8ArrayToBase64 (framedOutput P))
    (hs : s.dataBuffer = []) :
    (runRx parse pieces s).2.1 = [P] := by
  have hbytes : ∀ b ∈ P ++ [0], b < 256 := by
    intro b hb
    rcases List.mem_append.mp hb with h1 | h1
    · exact hB b h1
    · simp only [List.mem_singleton] at h1
      omega
  rw [framedOutput_eq P hB] at hcat
  obtain ⟨hjoin, hne⟩ := pieces_decode pieces (sextetsOf (P ++ [0])) (padOf (P ++ [0]))
    (sextetsOf_lt _ hbytes) (padOf_sextet_none _) (padOf_length_le _) hp
    (by rw [hcat]; rfl)
  rw [decodeSextets_sextetsOf _ hbytes] at hjoin
  have hpne : pieces ≠ [] := by
    intro h
    subst h
    exact uint8ArrayToBase64_ne_nil (P ++ [0]) (by simp) (by simpa using hcat.symm)
  exact runRx_calls parse pieces P [] s (by simp) hz hne (by simpa using hjoin) hpne hs

/-- C1 witness: the amended theorem evaluated at the one-byte payload `[65]`,
whose framed stream encodes to `QQA=`, delivered as a single fragment. -/
theorem c1_roundTrip_witness :
    (runRx (fun _ => none) [['Q', 'Q', 'A', '=']]
        ⟨true, false, false, 0, [], []⟩).2.1 = [[65]] :=
  c1_roundTrip_quad_fragment_boundaries [65] [['Q', 'Q', 'A', '=']] (fun _ => none)
    ⟨true, false, false, 0, [], []⟩ (by decide) (by decide) (by decide) (by decide) rfl

/-! ## C2 — sentinel extraction -/

theorem specExtract_concat : ∀ (P : List Nat), 0 ∉ P → specExtract (P ++ [0]) = (P, [])
  | [], _ => by simp [specExtract]
  | a :: P, h => by
      have ha : (a != 0) = true := by
        simp only [bne_iff_ne, ne_eq]
        intro h0
        exact h (by simp [h0])
      have ih := specExtract_concat P (fun hm => h (by simp [hm]))
      simp only [specExtract, Prod.mk.injEq] at ih
      simp only [specExtract, List.cons_append, List.takeWhile_cons, List.dropWhile_cons, ha,
        if_true, Prod.mk.injEq]
      exact ⟨by rw [ih.1], ih.2⟩

/-- C2, counterexample: a reassembly buffer `[48, 0, 49]` whose sentinel
first occurs mid-buffer (the fragment `MAAx` decodes to it).  The claim
demands delivery of `[48]` (the bytes before the first sentinel) and a
remaining buffer `[49]` (the bytes after it); the code instead hands
`[48, 0]` — all bytes except the final one, sentinel included — to message
parsing, the parse of that sentinel-bearing text fails, and the buffer is
left as `[48, 0, 49]`, not `[49]`. -/
theorem c2_extraction_not_first_sentinel :
    specExtract [48, 0, 49] = ([48], [49]) ∧
    (0 : Nat) ∈ ([] : List Nat) ++ bufferFromBase64 ['M', 'A', 'A', 'x'] ∧
    (onMessage (fun _ => none) ['M', 'A', 'A', 'x']
        ⟨true, false, false, 0, [], []⟩).2.parsed = some [48, 0] ∧
    (0 : Nat) ∈ [48, 0] ∧
    some [48, 0] ≠ some (specExtract [48, 0, 49]).1 ∧
    (onMessage (fun _ => none) ['M', 'A', 'A', 'x']
        ⟨true, false, false, 0, [], []⟩).1.dataBuffer = [48, 0, 49] ∧
    [48, 0, 49] ≠ (specExtract [48, 0, 49]).2 := by
  refine ⟨by decide, by decide, by decide, by decide, by decide, by decide, by decide⟩

/-- C2 (amended): whenever the buffer holds the sentinel anywhere, the code
hands the buffer minus its final byte — not the bytes before the first
sentinel occurrence — to message parsing, and afterwards the buffer is
empty if that parses and otherwise is left whole (retaining the sentinel
and everything around it).  Only in the well-formed case, where the
sentinel occurs exactly once and as the final byte, does this coincide
with the claim: the handed-over payload is then exactly the sentinel-free
bytes before the sentinel, and the bytes after the first occurrence —
which the buffer holds after a successful extraction — are exactly `[]`. -/
theorem c2_extraction_dropLast (parse : List Nat → Option Msg) (data : List Char)
    (s : KoriState) (buf : List Nat)
    (hbuf : s.dataBuffer ++ bufferFromBase64 data = buf) (h : 0 ∈ buf) :
    (onMessage parse data s).2.parsed = some buf.dropLast ∧
    ((onMessage parse data s).1.dataBuffer =
      if (parse buf.dropLast).isSome then [] else buf) ∧
    (∀ P, buf = P ++ [0] → 0 ∉ P →
      buf.dropLast = (specExtract buf).1 ∧ 0 ∉ (specExtract buf).1 ∧
      (specExtract buf).2 = []) := by
  have hstep := onMessage_sentinel parse data s (by rw [hbuf]; exact h)
  rw [hbuf] at hstep
  refine ⟨?_, ?_, ?_⟩
  · rw [hstep]
    cases parse buf.dropLast <;> simp
  · rw [hstep]
    cases hp : parse buf.dropLast <;> simp [hp, hbuf]
  · intro P hP hz
    subst hP
    rw [List.dropLast_concat, specExtract_concat P hz]
    exact ⟨rfl, hz, rfl⟩

/-- C2 witness: the amended theorem evaluated on the buffer `[65, 0]`
arriving as the single fragment `QQA=`, with a parser accepting `[65]`. -/
theorem c2_extraction_witness :
    (onMessage (fun _ => some ⟨"event1", "0"⟩) ['Q', 'Q', 'A', '=']
        ⟨true, false, false, 0, [], []⟩).2.parsed = some [65] ∧
    (onMessage (fun _ => some ⟨"event1", "0"⟩) ['Q', 'Q', 'A', '=']
        ⟨true, false, false, 0, [], []⟩).1.dataBuffer = [] := by
  have h := c2_extraction_dropLast (fun _ => some ⟨"event1", "0"⟩) ['Q', 'Q', 'A', '=']
    ⟨true, false, false, 0, [], []⟩ [65, 0] (by decide) (by decide)
  exact ⟨h.1.trans (by decide), (h.2.1).trans (by decide)⟩

/-! ## C3 — malformed messages -/

theorem malformed_blocks : ∀ (parse : List Nat → Option Msg) (frags : List (List Char))
    (g rest : List Nat) (s : KoriState),
    parse g = none → (∀ r, parse (g ++ 0 :: r) = none) →
    s.dataBuffer = g ++ 0 :: rest →
    (runRx parse frags s).2.2 = [] ∧
      ∃ r2, (runRx parse frags s).1.dataBuffer = g ++ 0 :: r2
  | parse, [], g, rest, s, _, _, hs => ⟨rfl, rest, hs⟩
  | parse, d :: frags, g, rest, s, hg, hgr, hs => by
      have hbuf : s.dataBuffer ++ bufferFromBase64 d =
          g ++ 0 :: (rest ++ bufferFromBase64 d) := by
        rw [hs]
        simp
      have hmem : 0 ∈ s.dataBuffer ++ bufferFromBase64 d := by
        rw [hbuf]
        simp
      have hparse : parse ((s.dataBuffer ++ bufferFromBase64 d).dropLast) = none := by
        rw [hbuf]
        cases hX : rest ++ bufferFromBase64 d with
        | nil =>
            rw [show g ++ 0 :: ([] : List Nat) = g ++ [0] from rfl, List.dropLast_concat]
            exact hg
        | cons x X2 =>
            rw [show g ++ 0 :: (x :: X2) = g ++ (0 :: x :: X2) from rfl,
              List.dropLast_append_of_ne_nil _ (by simp), List.dropLast_cons₂]
            exact hgr _
      have hstep := onMessage_sentinel parse d s hmem
      rw [hparse] at hstep
      have ih := malformed_blocks parse frags g (rest ++ bufferFromBase64 d)
        { s with dataBuffer := s.dataBuffer ++ bufferFromBase64 d } hg hgr (by simpa using hbuf)
      have hrun2 : (runRx parse (d :: frags) s).2.2 =
          (onMessage parse d s).2.emitted.toList ++
            (runRx parse frags (onMessage parse d s).1).2.2 := rfl
      have hrun1 : (runRx parse (d :: frags) s).1 =
          (runRx parse frags (onMessage parse d s).1).1 := rfl
      refine ⟨?_, ?_⟩
      · rw [hrun2, hstep]
        simpa using ih.1
      · rw [hrun1, hstep]
        simpa using ih.2

/-- C3, counterexample: a corrupt message does block all later messages.
With a pending waiter for `event1`, the framed well-formed sample message
alone is delivered and resolves the waiter; but if the corrupt framed
message `X` (bytes `[88, 0]`, fragment `WAA=`) arrives first, its bytes are
retained — not discarded — and the identical well-formed message that
follows is never delivered: every later parse sees the corrupt leading
bytes. -/
theorem c3_corrupt_message_blocks_stream :
    (runRx sampleParse [uint8ArrayToBase64 (sampleMessageBytes ++ [0])]
        ⟨true, false, false, 0, ["event1"], []⟩).2.2 = [("event1", true)] ∧
    (runRx sampleParse
        [uint8ArrayToBase64 [88, 0], uint8ArrayToBase64 (sampleMessageBytes ++ [0])]
        ⟨true, false, false, 0, ["event1"], []⟩).2.2 = [] ∧
    (runRx sampleParse [uint8ArrayToBase64 [88, 0]]
        ⟨true, false, false, 0, ["event1"], []⟩).1.dataBuffer = [88, 0] := by
  refine ⟨by decide, by decide, by decide⟩

/-- C3 (amended): a malformed completed message does not crash the handler
(the step is total and fully determined) and delivers nothing to any
waiter, but the buffered bytes are retained — not discarded — so the
corrupt prefix with its embedded sentinel persists: as long as every parse
of a byte list extending that prefix fails (which holds for `JSON.parse`,
since the text keeps the corrupt prefix and an embedded NUL), no later
fragment sequence ever produces an emission, and the corrupt prefix stays
at the front of the buffer. -/
theorem c3_malformed_retains_buffer :
    (∀ (parse : List Nat → Option Msg) (data : List Char) (s : KoriState),
      0 ∈ s.dataBuffer ++ bufferFromBase64 data →
      parse ((s.dataBuffer ++ bufferFromBase64 data).dropLast) = none →
      onMessage parse data s =
        ({ s with dataBuffer := s.dataBuffer ++ bufferFromBase64 data },
         { parsed := some ((s.dataBuffer ++ bufferFromBase64 data).dropLast),
           emitted := none })) ∧
    (∀ (parse : List Nat → Option Msg) (frags : List (List Char)) (g rest : List Nat)
        (s : KoriState),
      parse g = none → (∀ r, parse (g ++ 0 :: r) = none) →
      s.dataBuffer = g ++ 0 :: rest →
      (runRx parse frags s).2.2 = [] ∧
        ∃ r2, (runRx parse frags s).1.dataBuffer = g ++ 0 :: r2) := by
  constructor
  · intro parse data s hmem hparse
    have hstep := onMessage_sentinel parse data s hmem
    rw [hparse] at hstep
    exact hstep
  · exact fun parse frags g rest s hg hgr hs =>
      malformed_blocks parse frags g rest s hg hgr hs

/-- C3 witness: the amended theorem evaluated on the corrupt framed message
`[88, 0]` (fragment `WAA=`) and then one further fragment. -/
theorem c3_malformed_witness :
    onMessage (fun _ => none) ['W', 'A', 'A', '=']
        ⟨true, false, false, 0, ["event1"], []⟩ =
      (⟨true, false, false, 0, ["event1"], [88, 0]⟩, ⟨some [88], none⟩) ∧
    (runRx (fun _ => none) [['W', 'A', 'A', '=']]
        ⟨true, false, false, 0, ["event1"], [88, 0]⟩).2.2 = [] :=
  ⟨(c3_malformed_retains_buffer.1 (fun _ => none) ['W', 'A', 'A', '=']
      ⟨true, false, false, 0, ["event1"], []⟩ (by decide) rfl).trans (by decide),
   (c3_malformed_retains_buffer.2 (fun _ => none) [['W', 'A', 'A', '=']] [88] []
      ⟨true, false, false, 0, ["event1"], [88, 0]⟩ rfl (fun r => rfl) (by decide)).1⟩

/-! ## C4 — gate transitions -/

theorem onMessage_fields (parse : List Nat → Option Msg) (data : List Char) (s : KoriState) :
    ((onMessage parse data s).1).busy = s.busy ∧
    ((onMessage parse data s).1).busyTimeoutArmed = s.busyTimeoutArmed ∧
    ((onMessage parse data s).1).connected = s.connected := by
  by_cases h : 0 ∈ s.dataBuffer ++ bufferFromBase64 data
  · rw [onMessage_sentinel parse data s h]
    cases parse ((s.dataBuffer ++ bufferFromBase64 data).dropLast) <;> simp
  · rw [onMessage_no_sentinel parse data s h]
    simp

/-- C4, counterexample: a fulfilled chunk write — the `.then` of
`this._ble.write` inside `sendChunk` — clears the busy flag, a transition
the claim does not allow: it is neither the receipt of a resolving response
nor the expiry of the busy timeout. -/
theorem c4_write_ack_clears_busy :
    (step (fun _ => none) .chunkWriteOk ⟨true, true, true, 0, [], []⟩).busy = false ∧
    ¬ claimedBusyTransition .chunkWriteOk
        (⟨true, true, true, 0, [], []⟩ : KoriState).busy
        (step (fun _ => none) .chunkWriteOk ⟨true, true, true, 0, [], []⟩).busy := by
  refine ⟨rfl, by decide⟩

/-- C4 (amended): the busy flag changes only Idle→Busy at a send start (on a
connected, idle state) and Busy→Idle at a fulfilled chunk write or at the
busy-timeout expiry; the receipt of an inbound message — resolving or not —
never touches it.  The timeout part of the claim does hold: after the
timeout fires the flag is clear, and a send on a connected idle state
returns a promise. -/
theorem c4_busy_transitions (parse : List Nat → Option Msg) (e : KEvent) (s : KoriState) :
    ((step parse e s).busy = s.busy ∨
      (s.busy = false ∧ (step parse e s).busy = true ∧ e.isSendStart = true) ∨
      (s.busy = true ∧ (step parse e s).busy = false ∧ e.clearsBusy = true)) ∧
    (∀ data, (step parse (.messageArrive data) s).busy = s.busy) ∧
    (step parse .busyTimeoutFire s).busy = false ∧
    (s.connected = true → s.busy = false → ∀ m, ((send s m).2).isSome = true) := by
  refine ⟨?_, ?_, rfl, ?_⟩
  · cases e with
    | sendStart m =>
        simp only [step]
        unfold send
        by_cases hc : s.connected = false
        · rw [if_pos hc]
          left
          rfl
        · rw [if_neg hc]
          by_cases hb : s.busy = true
          · rw [if_pos hb]
            left
            rfl
          · rw [if_neg hb]
            right
            left
            exact ⟨by simpa using hb, rfl, rfl⟩
    | chunkWriteOk =>
        cases hb : s.busy
        · left
          rfl
        · right
          right
          exact ⟨rfl, rfl, rfl⟩
    | chunkWriteFail =>
        left
        rfl
    | busyTimeoutFire =>
        cases hb : s.busy
        · left
          rfl
        · right
          right
          exact ⟨rfl, rfl, rfl⟩
    | messageArrive data =>
        left
        exact (onMessage_fields parse data s).1
  · intro data
    exact (onMessage_fields parse data s).1
  · intro hc hb m
    unfold send
    rw [if_neg (by simp [hc]), if_neg (by simp [hb])]
    rfl

/-- C4 witness: the amended theorem instantiated on a connected idle state. -/
theorem c4_busy_witness :
    ((⟨true, false, false, 0, [], []⟩ : KoriState).connected = true) ∧
    ((send ⟨true, false, false, 0, [], []⟩ [65]).2).isSome = true :=
  ⟨rfl, (c4_busy_transitions (fun _ => none) .chunkWriteOk
    ⟨true, false, false, 0, [], []⟩).2.2.2 rfl rfl [65]⟩

/-! ## C5 — send while busy -/

/-- C5, counterexample: the "Busy outcome" the claim promises does not
exist.  `send` returns the identical value — JavaScript `undefined`,
modelled `none` — on a busy connected state and on a disconnected idle
state, although the spec's admission outcomes for the two states differ;
the caller cannot observe a Busy-labelled failure. -/
theorem c5_busy_outcome_indistinguishable :
    specSendOutcome ⟨true, true, true, 0, [], []⟩ = SpecOutcome.busy ∧
    specSendOutcome ⟨false, false, false, 0, [], []⟩ = SpecOutcome.notConnected ∧
    SpecOutcome.busy ≠ SpecOutcome.notConnected ∧
    (send ⟨true, true, true, 0, [], []⟩ [65]).2 =
      (send ⟨false, false, false, 0, [], []⟩ [65]).2 := by
  refine ⟨rfl, rfl, by decide, rfl⟩

/-- C5 (amended): a send attempted while the busy flag is set fails
immediately by returning `undefined` — with no Busy-labelled outcome,
indistinguishable from the not-connected failure — is never queued,
performs no side effects, and leaves the whole state, in particular the
correlator's pending listeners, unchanged. -/
theorem c5_busy_send_noop (s : KoriState) (m : List Nat) (h : s.busy = true) :
    send s m = (s, none) := by
  unfold send
  by_cases hc : s.connected = false
  · rw [if_pos hc]
  · rw [if_neg hc, if_pos h]

/-- C5 witness: the amended theorem on a busy connected state. -/
theorem c5_busy_send_witness :
    send ⟨true, true, true, 0, [], []⟩ [65] = (⟨true, true, true, 0, [], []⟩, none) :=
  c5_busy_send_noop ⟨true, true, true, 0, [], []⟩ [65] rfl

/-! ## C6 — fragment write failure -/

/-- C6, counterexample: with the third of five chunk writes failing, the
remaining fragments are indeed not written, but no `TransportWriteFailed`
outcome is surfaced: the rejection happens inside the discarded `async`
executor, so the promise `send` returned never settles at all — the caller
neither resolves nor rejects. -/
theorem c6_write_failure_not_surfaced :
    runChunks ⟨true, true, true, 0, [], []⟩ [['a'], ['b'], ['c'], ['d'], ['e']]
        [true, true, false] =
      (⟨true, false, false, 0, [], []⟩, [['a'], ['b'], ['c']], .neverSettles) ∧
    PromiseResult.neverSettles ≠ PromiseResult.rejected .transportWriteFailed ∧
    PromiseResult.neverSettles ≠ PromiseResult.resolved := by
  refine ⟨by decide, by decide, by decide⟩

/-- C6 (amended): when the fragment write after `pre` successful ones
fails, the chunks written are exactly `pre` plus the failing one — the rest
of the message is never written — the promise never settles, so nothing is
surfaced to the caller; the busy flag (and its timer) have been cleared iff
at least one earlier chunk write succeeded, and otherwise stay set until
the separate 5000 ms timeout; the correlator's listeners are untouched (no
waiter was ever registered, since registration only happens after the
promise resolves). -/
theorem c6_write_failure_behaviour (s : KoriState) (pre : List (List Char))
    (c : List Char) (post : List (List Char)) (ws2 : List Bool) :
    runChunks s (pre ++ c :: post) (List.replicate pre.length true ++ false :: ws2) =
      ((if pre.isEmpty then s else { s with busy := false, busyTimeoutArmed := false }),
       pre ++ [c], .neverSettles) := by
  induction pre generalizing s with
  | nil => rfl
  | cons p pre ih =>
      simp only [List.length_cons, List.replicate_succ, List.cons_append]
      rw [show runChunks s (p :: (pre ++ c :: post))
          (true :: (List.replicate pre.length true ++ false :: ws2)) =
          (let r := runChunks { s with busy := false, busyTimeoutArmed := false }
            (pre ++ c :: post) (List.replicate pre.length true ++ false :: ws2)
           (r.1, p :: r.2.1, r.2.2)) from rfl]
      rw [ih]
      cases pre <;> simp

/-! ## C8 — unmatched responses -/

/-- C8: a reassembled message whose embedded `event` key has no pending
waiter is tolerated: `emitter.emit` returns `false`, the handler does not
throw (it is a total function of the state), and the gate flags and the set
of pending listeners are left unchanged. -/
theorem c8_unmatched_key_tolerated (parse : List Nat → Option Msg) (data : List Char)
    (s : KoriState) (m : Msg)
    (hmem : 0 ∈ s.dataBuffer ++ bufferFromBase64 data)
    (hp : parse ((s.dataBuffer ++ bufferFromBase64 data).dropLast) = some m)
    (hnot : m.event ∉ s.listeners) :
    (onMessage parse data s).2.emitted = some (m.event, false) ∧
    (onMessage parse data s).1.listeners = s.listeners ∧
    (onMessage parse data s).1.busy = s.busy ∧
    (onMessage parse data s).1.busyTimeoutArmed = s.busyTimeoutArmed := by
  have hstep := onMessage_sentinel parse data s hmem
  rw [hp] at hstep
  have h1 : decide (m.event ∈ s.listeners) = false := decide_eq_false hnot
  have h2 : s.listeners.filter (fun x => !decide (x = m.event)) = s.listeners := by
    apply List.filter_eq_self.mpr
    intro a ha
    rw [decide_eq_false (fun hEq : a = m.event => hnot (hEq ▸ ha))]
    rfl
  have hemit : emitEvent s.listeners m.event = (false, s.listeners) := by
    unfold emitEvent
    rw [h1, h2]
  rw [hstep]
  simp [hemit]

/-- C8 witness: a message keyed `event9` arrives while only `event1` has a
waiter, on a busy gate: `emit` returns `false`, everything else is as it
was. -/
theorem c8_unmatched_witness :
    (onMessage (fun _ => some ⟨"event9", "0"⟩) ['Q', 'Q', 'A', '=']
        ⟨true, true, true, 0, ["event1"], []⟩).2.emitted = some ("event9", false) ∧
    (onMessage (fun _ => some ⟨"event9", "0"⟩) ['Q', 'Q', 'A', '=']
        ⟨true, true, true, 0, ["event1"], []⟩).1.listeners = ["event1"] ∧
    (onMessage (fun _ => some ⟨"event9", "0"⟩) ['Q', 'Q', 'A', '=']
        ⟨true, true, true, 0, ["event1"], []⟩).1.busy = true ∧
    (onMessage (fun _ => some ⟨"event9", "0"⟩) ['Q', 'Q', 'A', '=']
        ⟨true, true, true, 0, ["event1"], []⟩).1.busyTimeoutArmed = true :=
  c8_unmatched_key_tolerated (fun _ => some ⟨"event9", "0"⟩) ['Q', 'Q', 'A', '=']
    ⟨true, true, true, 0, ["event1"], []⟩ ⟨"event9", "0"⟩ (by decide) rfl (by decide)

/-! ## C9 — the off-by-one null terminator -/

/-- C9: in `Kori.send` the output buffer has length `message.length + 1`
while the explicit terminator write targets index `message.length + 1`, one
past the end, so that write is a no-op on the `Uint8Array`; the final byte
is `0` purely because the freshly allocated array is zero-initialised — it
is already `0` after the copy loop — and consequently the framed bytes are
exactly the message followed by one `0x00`. -/
theorem c9_framing_oob_write (m : List Nat) (h : ∀ b ∈ m, b < 256) :
    uint8Write (copyLoop m (List.replicate (m.length + 1) 0)) (m.length + 1) 0 =
      copyLoop m (List.replicate (m.length + 1) 0) ∧
    (copyLoop m (List.replicate (m.length + 1) 0)).getD m.length 99 = 0 ∧
    framedOutput m = m ++ [0] := by
  refine ⟨framedOutput_oobWrite m, ?_, framedOutput_eq m h⟩
  rw [copyLoop_spec]
  rw [List.getD_eq_getElem?_getD, List.getElem?_append_right (by simp)]
  simp

/-- C9 witness: the framing of the two-byte message `[72, 105]`. -/
theorem c9_framing_witness : framedOutput [72, 105] = [72, 105, 0] :=
  (c9_framing_oob_write [72, 105] (by decide)).2.2.trans (by decide)

/-! ## C10 — undefined instead of a promise -/

theorem send_none_of (s : KoriState) (m : List Nat)
    (h : s.connected = false ∨ s.busy = true) : (send s m).2 = none := by
  unfold send
  rcases h with hc | hb
  · rw [if_pos hc]
  · by_cases hc : s.connected = false
    · rw [if_pos hc]
    · rw [if_neg hc, if_pos hb]

/-- C10: whenever `send` is invoked while the peripheral is disconnected or
the busy flag is set, it returns JavaScript `undefined` (`none`) rather
than a promise; consequently `getConfig`, which chains `.then` onto the
result of `displayText`, throws a `TypeError` in that situation instead of
receiving a Busy or NotConnected error. -/
theorem c10_undefined_then_typeError (s : KoriState) (m : List Nat) (ws : List Bool)
    (h : s.connected = false ∨ s.busy = true) :
    (send s m).2 = none ∧ (getConfig s ws).2.2 = GetConfigResult.typeError := by
  refine ⟨send_none_of s m h, ?_⟩
  have hnone : (displayText { s with eventIndex := s.eventIndex + 1 }
      (getConfigText (s.eventIndex + 1))).2 = none := by
    unfold displayText
    refine send_none_of _ _ ?_
    rcases h with hh | hh
    · exact Or.inl hh
    · exact Or.inr hh
  rcases hd : displayText { s with eventIndex := s.eventIndex + 1 }
      (getConfigText (s.eventIndex + 1)) with ⟨s2, o⟩
  have ho : o = none := by
    rw [hd] at hnone
    exact hnone
  subst ho
  simp only [getConfig, hd]

/-- C10 witness: the theorem on a disconnected idle state. -/
theorem c10_undefined_witness :
    (send ⟨false, false, false, 0, [], []⟩ [65]).2 = none ∧
    (getConfig ⟨false, false, false, 0, [], []⟩ [true]).2.2 = GetConfigResult.typeError :=
  c10_undefined_then_typeError ⟨false, false, false, 0, [], []⟩ [65] [true] (Or.inl rfl)

/-! ## C7 — waiter registration ordering -/

theorem runChunks_written_cons (s : KoriState) (c : List Char) (cs : List (List Char))
    (ws : List Bool) : ∃ t, (runChunks s (c :: cs) ws).2.1 = c :: t := by
  cases ws with
  | nil => exact ⟨[], rfl⟩
  | cons w ws =>
      cases w
      · exact ⟨[], rfl⟩
      · exact ⟨(runChunks { s with busy := false, busyTimeoutArmed := false } cs ws).2.1, rfl⟩

theorem send_chunks_shape (s : KoriState) (m : List Nat) (chunks : List (List Char))
    (h : (send s m).2 = some chunks) :
    chunks = chunkData (uint8ArrayToBase64 (framedOutput m)) := by
  unfold send at h
  by_cases hc : s.connected = false
  · rw [if_pos hc] at h
    cases h
  · rw [if_neg hc] at h
    by_cases hb : s.busy = true
    · rw [if_pos hb] at h
      cases h
    · rw [if_neg hb] at h
      simp only [Option.some.injEq] at h
      exact h.symm

set_option maxRecDepth 4000 in
/-- C7, counterexample: in a `getConfig` run on a connected idle state with
the single chunk write succeeding, the action trace is
`[write chunk, registerWaiter event1]`: the trace holds a registration, yet
no registration precedes the transport write — the waiter is registered
only after the whole payload has been written, so a response arriving
during transmission finds no waiter. -/
theorem c7_register_after_write :
    registeredBeforeWrite (getConfig ⟨true, false, false, 0, [], []⟩ [true]).2.1 = false ∧
    ((getConfig ⟨true, false, false, 0, [], []⟩ [true]).2.1).map Action.isRegister
      = [false, true] := by
  refine ⟨by decide, by decide⟩

/-- C7 (amended): in every `getConfig` execution the action trace consists
of the transport writes first, followed by at most one waiter registration
(present exactly when the send promise resolved); no registration ever
precedes a write. -/
theorem c7_register_follows_writes (s : KoriState) (ws : List Bool) :
    (∃ cs tail, (getConfig s ws).2.1 = List.map Action.write cs ++ tail ∧
      (tail = [] ∨ ∃ key, tail = [Action.registerWaiter key])) ∧
    registeredBeforeWrite (getConfig s ws).2.1 = false := by
  rcases hd : displayText { s with eventIndex := s.eventIndex + 1 }
      (getConfigText (s.eventIndex + 1)) with ⟨s2, o⟩
  cases o with
  | none =>
      constructor
      · refine ⟨[], [], ?_, Or.inl rfl⟩
        simp [getConfig, hd]
      · simp [getConfig, hd, registeredBeforeWrite]
  | some chunks =>
      have hshape : chunks = chunkData (uint8ArrayToBase64 (framedOutput
          ((getConfigText (s.eventIndex + 1)).map (fun c => c.toNat % 256)))) := by
        apply send_chunks_shape { s with eventIndex := s.eventIndex + 1 }
        have h2 := congrArg Prod.snd hd
        simpa [displayText] using h2
      have hdata_ne : uint8ArrayToBase64 (framedOutput
          ((getConfigText (s.eventIndex + 1)).map (fun c => c.toNat % 256))) ≠ [] := by
        apply uint8ArrayToBase64_ne_nil
        rw [framedOutput_map]
        simp
      obtain ⟨c0, cs0, hchunks⟩ : ∃ c0 cs0, chunks = c0 :: cs0 := by
        rw [hshape]
        rcases hv : uint8ArrayToBase64 (framedOutput
            ((getConfigText (s.eventIndex + 1)).map (fun c => c.toNat % 256))) with _ | ⟨a, l⟩
        · exact absurd hv hdata_ne
        · rw [hv]
          refine ⟨a :: List.take 179 l, chunksByFuel 179 l.length (List.drop 179 l), ?_⟩
          simp [chunkData, chunksBy, chunksByFuel]
      subst hchunks
      obtain ⟨t, ht⟩ := runChunks_written_cons s2 c0 cs0 ws
      constructor
      · cases hr : (runChunks s2 (c0 :: cs0) ws).2.2 with
        | resolved =>
            refine ⟨(runChunks s2 (c0 :: cs0) ws).2.1,
              [Action.registerWaiter
                ("event" ++ toString (runChunks s2 (c0 :: cs0) ws).1.eventIndex)],
              ?_, Or.inr ⟨_, rfl⟩⟩
            simp [getConfig, hd, hr]
        | neverSettles =>
            refine ⟨(runChunks s2 (c0 :: cs0) ws).2.1, [], ?_, Or.inl rfl⟩
            simp [getConfig, hd, hr]
        | rejected e =>
            refine ⟨(runChunks s2 (c0 :: cs0) ws).2.1, [], ?_, Or.inl rfl⟩
            simp [getConfig, hd, hr]
      · cases hr : (runChunks s2 (c0 :: cs0) ws).2.2 with
        | resolved =>
            simp only [getConfig, hd, hr]
            rw [ht]
            rfl
        | neverSettles =>
            simp only [getConfig, hd, hr]
            rw [ht]
            rfl
        | rejected e =>
            simp only [getConfig, hd, hr]
            rw [ht]
            rfl

end Kori
